import Mathlib

/-!
Shallow embedding of the signal-decision and simulation engine of the
exchange-notify repository: the reversal detector and funding-rate
percentile scorer (`src/analyzers/signal.py`), the position tracker with
trailing stop lines (`src/analyzers/position_tracker.py`), and the
backtest return / train-test validation logic (`src/backtest.py`).
Machine floats are modelled as rationals; Python `round` (banker's
rounding) is modelled exactly on rationals; `None` becomes `Option`.
-/

namespace ExchangeNotify

/-- Python `round` rounds half to even.  `roundHalfEven q` is the integer
Python's `round(q)` returns, modelled on exact rationals. -/
def roundHalfEven (q : ℚ) : ℤ :=
  if Int.fract q = 1/2 then (if Even ⌊q⌋ then ⌊q⌋ else ⌊q⌋ + 1) else round q

/-- Python `round(q, n)`: round to `n` decimal digits, half to even. -/
def pyRound (q : ℚ) (n : ℕ) : ℚ :=
  (roundHalfEven (q * 10 ^ n) : ℚ) / 10 ^ n

/-- Signal strength ladder 弱 / 中等 / 强 / 极强 of `signal.py`. -/
inductive Strength
  | weak
  | medium
  | strong
  | extreme
  deriving DecidableEq, Repr

/-- `SignalGenerator._calculate_funding_percentile` (signal.py:318-337):
fails closed below 24 samples, else the share of history strictly below
the current rate, as a percentage rounded to one decimal. -/
def calcFundingPercentile (history : List ℚ) (current : ℚ) : Option ℚ :=
  if history.length < 24 then none
  else
    let lowerCount := (history.filter (fun x => x < current)).length
    let percentile := ((lowerCount : ℚ) / (history.length : ℚ)) * 100
    some (pyRound percentile 1)

/-- The consecutive-rise loop of `_check_reversal` (signal.py:273-275):
`false` as soon as one adjacent pair fails to strictly increase. -/
def strictlyIncreasing : List ℤ → Bool
  | [] => true
  | [_] => true
  | a :: b :: t => decide (a < b) && strictlyIncreasing (b :: t)

/-- The consecutive-fall loop of `_check_reversal` (signal.py:302-304). -/
def strictlyDecreasing : List ℤ → Bool
  | [] => true
  | [_] => true
  | a :: b :: t => decide (b < a) && strictlyDecreasing (b :: t)

/-- `SignalGenerator._check_reversal` (signal.py:200-316) on an already
filtered history list.  `history` is chronological, oldest first; the
Python `history[-1]` is `history.getLast?`, and an empty history in the
panic/greed branch raises `IndexError`, caught by the surrounding
`except` which returns `False` — hence `none => false`. -/
def checkReversal (enabled : Bool) (requiredPeriods : ℕ) (history : List ℤ)
    (currentFg : ℤ) : Bool :=
  if !enabled then false
  else if history.length < requiredPeriods then false
  else if currentFg < 30 then
    match history.getLast? with
    | none => false
    | some last =>
      if last ≥ 30 then false
      else
        let tail := history.drop (history.length - requiredPeriods)
        if tail.any (fun v => decide (v ≥ 30)) then false
        else if !strictlyIncreasing tail then false
        else if currentFg ≤ last then false
        else true
  else if currentFg > 70 then
    match history.getLast? with
    | none => false
    | some last =>
      if last ≤ 70 then false
      else
        let tail := history.drop (history.length - requiredPeriods)
        if tail.any (fun v => decide (v ≤ 70)) then false
        else if !strictlyDecreasing tail then false
        else if currentFg ≥ last then false
        else true
  else false

lemma strictlyIncreasing_iff_chain' (l : List ℤ) :
    strictlyIncreasing l = true ↔ List.Chain' (· < ·) l := by
  induction l with
  | nil => simp [strictlyIncreasing]
  | cons a t ih =>
    cases t with
    | nil => simp [strictlyIncreasing]
    | cons b t' =>
      simp only [strictlyIncreasing, Bool.and_eq_true, decide_eq_true_eq,
        List.chain'_cons] at *
      exact and_congr Iff.rfl ih

section ReversalClaims

/-- C4: with reversal checking enabled and current value in the
non-greed region, the panic-reversal check succeeds exactly when: the
current value is below 30, the history holds at least `K` points, its
last point is below 30, all of its last `K` points are below 30 and
strictly increasing, and the current value exceeds the last point. -/
theorem checkReversal_panic_iff (K : ℕ) (history : List ℤ) (current : ℤ)
    (hcur : current ≤ 70) :
    checkReversal true K history current = true ↔
      (current < 30 ∧ K ≤ history.length ∧
        ∃ last, history.getLast? = some last ∧ last < 30 ∧
          (∀ v ∈ history.drop (history.length - K), v < 30) ∧
          List.Chain' (· < ·) (history.drop (history.length - K)) ∧
          last < current) := by
  unfold checkReversal
  simp only [Bool.not_true, Bool.false_eq_true, if_false]
  by_cases hlen : history.length < K
  · simp only [if_pos hlen]
    constructor
    · intro h; exact absurd h (by simp)
    · rintro ⟨-, hK, -⟩; omega
  · simp only [if_neg hlen]
    by_cases h30 : current < 30
    · simp only [if_pos h30]
      cases hlast : history.getLast? with
      | none =>
        simp only [Bool.false_eq_true, false_iff]
        rintro ⟨-, -, last, hl, -⟩
        exact Option.noConfusion hl
      | some last =>
        by_cases hge : last ≥ 30
        · simp only [if_pos hge, Bool.false_eq_true, false_iff]
          rintro ⟨-, -, last', hl', hlt, -⟩
          injection hl' with h'
          omega
        · simp only [if_neg hge]
          by_cases hany :
              (history.drop (history.length - K)).any
                (fun v => decide (v ≥ 30)) = true
          · simp only [hany, if_true, Bool.false_eq_true, false_iff]
            rintro ⟨-, -, last', hl', -, hall, -⟩
            rw [List.any_eq_true] at hany
            obtain ⟨v, hv, hv30⟩ := hany
            have := hall v hv
            simp only [decide_eq_true_eq] at hv30
            omega
          · simp only [hany, if_false]
            by_cases hinc :
                strictlyIncreasing (history.drop (history.length - K)) = true
            · simp only [hinc, Bool.not_true, Bool.false_eq_true, if_false]
              by_cases hle : current ≤ last
              · simp only [if_pos hle, Bool.false_eq_true, false_iff]
                rintro ⟨-, -, last', hl', -, -, -, hlt⟩
                injection hl' with h'
                omega
              · simp only [if_neg hle, true_iff]
                refine ⟨h30, by omega, last, rfl, by omega, ?_, ?_, by omega⟩
                · intro v hv
                  by_contra hv30
                  have : (history.drop (history.length - K)).any
                      (fun v => decide (v ≥ 30)) = true := by
                    rw [List.any_eq_true]
                    exact ⟨v, hv, by simp; omega⟩
                  exact hany this
                · exact (strictlyIncreasing_iff_chain' _).mp hinc
            · have hinc' : strictlyIncreasing
                  (history.drop (history.length - K)) = false :=
                eq_false_of_ne_true hinc
              constructor
              · intro h
                rw [hinc'] at h
                simp at h
              · rintro ⟨-, -, last', hl', -, -, hch, -⟩
                exact absurd ((strictlyIncreasing_iff_chain' _).mpr hch) hinc
    · simp only [if_neg h30]
      have h70 : ¬ current > 70 := by omega
      simp only [if_neg h70, Bool.false_eq_true, false_iff]
      rintro ⟨h, -⟩
      omega

/-- Witness for C4 at spec scenario A: history `[10,15,20,25]`,
current `28`, `K = 2`. -/
theorem checkReversal_panic_iff_witness :
    checkReversal true 2 [10, 15, 20, 25] 28 = true :=
  (checkReversal_panic_iff 2 [10, 15, 20, 25] 28 (by decide)).mpr
    ⟨by decide, by decide, 25, rfl, by decide, by decide,
      List.chain'_pair.mpr (by decide), by decide⟩

end ReversalClaims

section PercentileClaims

lemma roundHalfEven_nonneg (q : ℚ) (h : 0 ≤ q) : 0 ≤ roundHalfEven q := by
  unfold roundHalfEven
  split
  · split
    · exact Int.floor_nonneg.mpr h
    · have := Int.floor_nonneg.mpr h
      omega
  · rw [round_eq]
    exact Int.floor_nonneg.mpr (by linarith)

lemma roundHalfEven_le (q : ℚ) (n : ℤ) (h : q ≤ n) : roundHalfEven q ≤ n := by
  unfold roundHalfEven
  split
  · rename_i hfr
    have hq : q = (⌊q⌋ : ℚ) + 1/2 := by
      conv_lhs => rw [← Int.floor_add_fract q]
      rw [hfr]
    have hlt : ⌊q⌋ < n := by
      have : (⌊q⌋ : ℚ) < (n : ℚ) := by rw [hq] at h; linarith
      exact_mod_cast this
    split <;> omega
  · rw [round_eq]
    have h2 : ⌊q + 1/2⌋ ≤ ⌊(n : ℚ) + 1/2⌋ := Int.floor_le_floor (by linarith)
    have h3 : ⌊(n : ℚ) + 1/2⌋ = n := by
      rw [Int.floor_int_add]
      norm_num
    omega

lemma pyRound_zero_one : pyRound 0 1 = 0 := by
  norm_num [pyRound, roundHalfEven, Int.fract_zero, round_zero]

/-- C5: the percentile scorer fails closed below 24 samples, otherwise
returns the rounded share of strictly smaller history values, always in
`[0, 100]`, and `0` when no history element is below the current value. -/
theorem calcFundingPercentile_spec (history : List ℚ) (current : ℚ) :
    (history.length < 24 → calcFundingPercentile history current = none) ∧
    (24 ≤ history.length →
      ∃ r, calcFundingPercentile history current = some r ∧
        r = pyRound (((history.filter (fun x => x < current)).length : ℚ)
              / (history.length : ℚ) * 100) 1 ∧
        0 ≤ r ∧ r ≤ 100 ∧
        ((∀ x ∈ history, ¬ x < current) → r = 0)) := by
  constructor
  · intro h
    unfold calcFundingPercentile
    rw [if_pos h]
  · intro h
    have hnl : ¬ history.length < 24 := by omega
    have hN : (0 : ℚ) < (history.length : ℚ) := by
      have : 0 < history.length := by omega
      exact_mod_cast this
    refine ⟨pyRound (((history.filter (fun x => x < current)).length : ℚ)
        / (history.length : ℚ) * 100) 1, ?_, rfl, ?_, ?_, ?_⟩
    · unfold calcFundingPercentile
      rw [if_neg hnl]
    · unfold pyRound
      have h0 := roundHalfEven_nonneg
        ((((history.filter (fun x => x < current)).length : ℚ)
          / (history.length : ℚ) * 100) * 10 ^ 1) (by positivity)
      have h0q : (0 : ℚ) ≤ (roundHalfEven
          ((((history.filter (fun x => x < current)).length : ℚ)
            / (history.length : ℚ) * 100) * 10 ^ 1) : ℚ) := by
        exact_mod_cast h0
      have h10 : (0 : ℚ) < (10 : ℚ) ^ 1 := by norm_num
      exact div_nonneg h0q (le_of_lt h10)
    · have hcle : ((history.filter (fun x => x < current)).length : ℚ) ≤
          (history.length : ℚ) := by
        exact_mod_cast List.length_filter_le _ _
      have hq100 : (((history.filter (fun x => x < current)).length : ℚ)
          / (history.length : ℚ) * 100) * 10 ^ 1 ≤ ((1000 : ℤ) : ℚ) := by
        rw [div_mul_eq_mul_div, div_mul_eq_mul_div, div_le_iff₀ hN]
        push_cast
        nlinarith
      have hle := roundHalfEven_le _ 1000 hq100
      unfold pyRound
      rw [div_le_iff₀ (by norm_num : (0 : ℚ) < 10 ^ 1)]
      have : ((roundHalfEven ((((history.filter (fun x => x < current)).length : ℚ)
          / (history.length : ℚ) * 100) * 10 ^ 1)) : ℚ) ≤ ((1000 : ℤ) : ℚ) := by
        exact_mod_cast hle
      calc ((roundHalfEven ((((history.filter (fun x => x < current)).length : ℚ)
            / (history.length : ℚ) * 100) * 10 ^ 1)) : ℚ)
          ≤ ((1000 : ℤ) : ℚ) := this
        _ = 100 * 10 ^ 1 := by norm_num
    · intro hall
      have hfil : history.filter (fun x => x < current) = [] := by
        rw [List.filter_eq_nil_iff]
        intro a ha
        simpa using hall a ha
      rw [hfil]
      simpa using pyRound_zero_one

/-- Witness for C5: history of 24 equal samples, current value above all
of them: percentile 100. -/
theorem calcFundingPercentile_spec_witness :
    calcFundingPercentile (List.replicate 24 1) 5 = some 100 := by
  obtain ⟨-, h⟩ := calcFundingPercentile_spec (List.replicate 24 1) 5
  obtain ⟨r, hr, hval, -, -, -⟩ := h (by decide)
  rw [hr, hval]
  norm_num [pyRound, roundHalfEven, List.filter, Int.fract, round_eq]

end PercentileClaims

/-! ## Position tracker (`src/analyzers/position_tracker.py`) -/

/-- Position status `open / stopped / closed`. -/
inductive PStatus
  | openP
  | stopped
  | closed
  deriving DecidableEq, Repr

/-- `Position` (position_tracker.py:15-46), prices as rationals; the
`stop_triggered_at` wall-clock timestamp is modelled as a Bool flag. -/
structure Position where
  coin : String
  entry_price : ℚ
  amount : ℚ
  max_price : ℚ
  current_price : ℚ
  status : PStatus
  stop_triggered_at : Bool
  stop_price : Option ℚ
  deriving DecidableEq, Repr

/-- `Position.__init__` (position_tracker.py:18-28). -/
def Position.init (coin : String) (entryPrice : ℚ) (amount : ℚ) : Position :=
  { coin := coin
    entry_price := entryPrice
    amount := amount
    max_price := entryPrice
    current_price := entryPrice
    status := .openP
    stop_triggered_at := false
    stop_price := none }

/-- `Position.add_amount` (position_tracker.py:30-39): merge an add into
a weighted-average entry price; `max_price` is deliberately untouched. -/
def Position.addAmount (pos : Position) (price amount : ℚ) : Position :=
  let totalValue := pos.entry_price * pos.amount + price * amount
  let newAmount := pos.amount + amount
  { pos with amount := newAmount, entry_price := totalValue / newAmount }

/-- `Position.update_price` (position_tracker.py:41-46). -/
def Position.updatePrice (pos : Position) (price : ℚ) : Position :=
  { pos with
    current_price := price
    max_price := if price > pos.max_price then price else pos.max_price }

/-- `Position.get_return_pct` (position_tracker.py:48-50). -/
def Position.getReturnPct (pos : Position) : ℚ :=
  (pos.current_price - pos.entry_price) / pos.entry_price * 100

/-- `Position.get_drawdown_from_max` (position_tracker.py:52-56). -/
def Position.getDrawdownFromMax (pos : Position) : ℚ :=
  if pos.max_price = 0 then 0
  else (pos.current_price - pos.max_price) / pos.max_price * 100

/-- One operation on a position after it is opened: a pyramiding add or
a price tick. -/
inductive PosOp
  | add (price amount : ℚ)
  | tick (price : ℚ)

/-- Apply one operation. -/
def Position.applyOp (pos : Position) : PosOp → Position
  | .add price amount => pos.addAmount price amount
  | .tick price => pos.updatePrice price

/-- Apply a sequence of operations, oldest first. -/
def Position.applyOps (pos : Position) (ops : List PosOp) : Position :=
  ops.foldl Position.applyOp pos

/-- The side conditions under which a sequence of operations keeps the
`max_price ≥ entry_price` invariant: every add has positive amount and
an add price at most the running `max_price`. -/
def ValidOps (pos : Position) : List PosOp → Prop
  | [] => True
  | op :: rest =>
    (match op with
      | .add price amount => 0 < amount ∧ price ≤ pos.max_price
      | .tick _ => True) ∧ ValidOps (pos.applyOp op) rest

section PositionClaims

/-- Counterexample to C2 as stated: opening at 100 and pyramiding at
price 300 (a positive price, positive amount) lifts the weighted-average
entry price to 200 while `max_price` stays 100, so
`max_price ≥ entry_price` fails right after the add. -/
theorem position_invariant_counterexample :
    ¬ (((Position.init "BTC" 100 1).addAmount 300 1).max_price ≥
        ((Position.init "BTC" 100 1).addAmount 300 1).entry_price) := by
  simp only [Position.init, Position.addAmount]
  norm_num

lemma invariant_step (pos : Position) (op : PosOp)
    (hamt : 0 < pos.amount) (hinv : pos.entry_price ≤ pos.max_price)
    (hok : match op with
      | .add price amount => 0 < amount ∧ price ≤ pos.max_price
      | .tick _ => True) :
    0 < (pos.applyOp op).amount ∧
      (pos.applyOp op).entry_price ≤ (pos.applyOp op).max_price := by
  cases op with
  | add price amount =>
    obtain ⟨hpos, hple⟩ := hok
    have hden : 0 < pos.amount + amount := by linarith
    constructor
    · simpa [Position.applyOp, Position.addAmount] using hden
    · simp only [Position.applyOp, Position.addAmount]
      rw [div_le_iff₀ hden]
      nlinarith
  | tick price =>
    refine ⟨by simpa [Position.applyOp, Position.updatePrice] using hamt, ?_⟩
    simp only [Position.applyOp, Position.updatePrice]
    split
    · rename_i hgt
      linarith
    · exact hinv

lemma validOps_append_left (pos : Position) (l₁ l₂ : List PosOp)
    (h : ValidOps pos (l₁ ++ l₂)) : ValidOps pos l₁ := by
  induction l₁ generalizing pos with
  | nil => trivial
  | cons op rest ih =>
    obtain ⟨hok, hrest⟩ := h
    exact ⟨hok, ih _ hrest⟩

lemma invariant_applyOps (ops : List PosOp) :
    ∀ pos : Position, 0 < pos.amount → pos.entry_price ≤ pos.max_price →
      ValidOps pos ops →
      0 < (pos.applyOps ops).amount ∧
        (pos.applyOps ops).entry_price ≤ (pos.applyOps ops).max_price := by
  induction ops with
  | nil => intro pos h1 h2 _; exact ⟨h1, h2⟩
  | cons op rest ih =>
    intro pos h1 h2 hvalid
    obtain ⟨hok, hrest⟩ := hvalid
    obtain ⟨h1', h2'⟩ := invariant_step pos op h1 h2 hok
    exact ih (pos.applyOp op) h1' h2' hrest

/-- C2 amended: for a position opened with positive amount, the
invariant `max_price ≥ entry_price` holds after every prefix of any
sequence of operations, provided each pyramiding add has positive amount
and a price not exceeding the running `max_price` (an add above the
running maximum breaks the invariant; see the counterexample). -/
theorem position_invariant_amended (coin : String) (entry amount : ℚ)
    (ops pre suf : List PosOp)
    (hamt : 0 < amount) (hsplit : ops = pre ++ suf)
    (hvalid : ValidOps (Position.init coin entry amount) ops) :
    ((Position.init coin entry amount).applyOps pre).entry_price ≤
      ((Position.init coin entry amount).applyOps pre).max_price := by
  subst hsplit
  have hpre := validOps_append_left _ _ _ hvalid
  exact (invariant_applyOps pre (Position.init coin entry amount)
    (by simpa [Position.init] using hamt) (le_refl _) hpre).2

/-- Witness for C2 amended: open at 100, tick to 120, add at 110,
tick to 90. -/
theorem position_invariant_amended_witness :
    (((Position.init "BTC" 100 1).applyOps
        [.tick 120, .add 110 1]).entry_price ≤
      ((Position.init "BTC" 100 1).applyOps
        [.tick 120, .add 110 1]).max_price) :=
  position_invariant_amended "BTC" 100 1
    [.tick 120, .add 110 1, .tick 90] [.tick 120, .add 110 1] [.tick 90]
    (by norm_num) rfl
    (by refine ⟨trivial, ⟨by norm_num, ?_⟩, trivial, trivial⟩
        show (110 : ℚ) ≤ ((Position.init "BTC" 100 1).applyOp (.tick 120)).max_price
        norm_num [Position.applyOp, Position.updatePrice, Position.init])

end PositionClaims

/-! ## Stop lines (`position_tracker.py` live, `backtest.py` replay) -/

/-- `risk.stop_loss_type`: `trailing` or `fixed`. -/
inductive StopType
  | trailing
  | fixedStop
  deriving DecidableEq, Repr

/-- The per-position stop line of `PositionTracker.get_stop_line`
(position_tracker.py:249-258), given the tracker's risk configuration. -/
def getStopLineP (stopType : StopType) (stopPct initialStop : ℚ)
    (pos : Position) : ℚ :=
  match stopType with
  | .trailing => pos.max_price * (1 + stopPct / 100)
  | .fixedStop => pos.entry_price * (1 + initialStop / 100)

/-- `PositionTracker._check_stop_loss` (position_tracker.py:235-247). -/
def checkStopLoss (stopType : StopType) (stopPct initialStop : ℚ)
    (pos : Position) : Bool :=
  if pos.status ≠ .openP then false
  else match stopType with
    | .trailing => decide (pos.getDrawdownFromMax ≤ stopPct)
    | .fixedStop => decide (pos.getReturnPct ≤ initialStop)

/-- The per-day peak / stop-line update of the backtest replay
(backtest.py:556-567) on the state `(max_price, current_stop_price)`.
A missing day (`None`) — and, via Python truthiness, a zero price — is
skipped (`continue`). -/
def btStopStep (stopPct : ℚ) (st : ℚ × ℚ) (dayPrice : Option ℚ) : ℚ × ℚ :=
  match dayPrice with
  | none => st
  | some p =>
    if p = 0 then st
    else if p > st.1 then (p, max st.2 (p * (1 + stopPct / 100)))
    else st

section StopLineClaims

lemma chain'_le_map_scanl {α β : Type} (f : α → ℚ) (g : α → β → α)
    (hstep : ∀ a b, f a ≤ f (g a b)) (l : List β) :
    ∀ a : α, List.Chain' (· ≤ ·) ((List.scanl g a l).map f) := by
  induction l with
  | nil => intro a; simp
  | cons x xs ih =>
    intro a
    rw [List.scanl_cons, List.singleton_append, List.map_cons,
      List.chain'_cons']
    refine ⟨?_, ih (g a x)⟩
    intro h hh
    cases xs with
    | nil =>
      simp only [List.scanl_nil, List.map_cons, List.map_nil, List.head?_cons,
        Option.mem_def, Option.some.injEq] at hh
      rw [← hh]
      exact hstep a x
    | cons y ys =>
      simp only [List.scanl_cons, List.singleton_append, List.map_cons,
        List.head?_cons, Option.mem_def, Option.some.injEq] at hh
      rw [← hh]
      exact hstep a x

/-- Counterexample to C6 as stated: `stopPct = -150` is a fixed negative
stop percentage, yet the live trailing stop line *falls* from `-50` to
`-100` when the price ticks from 100 up to 200. -/
theorem stop_line_monotone_counterexample :
    getStopLineP .trailing (-150) (-20)
        ((Position.init "BTC" 100 1).updatePrice 200) <
      getStopLineP .trailing (-150) (-20) (Position.init "BTC" 100 1) := by
  have h : ((Position.init "BTC" 100 1).updatePrice 200).max_price = 200 := by
    simp only [Position.updatePrice, Position.init]
    rw [if_pos (by norm_num : (200 : ℚ) > 100)]
  have h0 : (Position.init "BTC" 100 1).max_price = 100 := rfl
  simp only [getStopLineP, h, h0]
  norm_num

/-- C6 amended: the trailing stop line is monotonically non-decreasing
over any tick sequence in the live tracker whenever `stopPct ≥ -100`
(so that the trailing factor `1 + stopPct/100` is non-negative; below
`-100` it decreases, see the counterexample), and unconditionally in the
backtest replay, whose update takes an explicit running maximum. -/
theorem stop_line_monotone_amended (stopPct initialStop : ℚ) (pos : Position)
    (ticks : List ℚ) (hpct : -100 ≤ stopPct) :
    List.Chain' (· ≤ ·) ((List.scanl Position.updatePrice pos ticks).map
        (getStopLineP .trailing stopPct initialStop)) ∧
    ∀ (stopPct₂ : ℚ) (st : ℚ × ℚ) (days : List (Option ℚ)),
      List.Chain' (· ≤ ·)
        ((List.scanl (btStopStep stopPct₂) st days).map Prod.snd) := by
  constructor
  · refine chain'_le_map_scanl _ _ ?_ ticks pos
    intro p x
    simp only [getStopLineP, Position.updatePrice]
    have hfac : 0 ≤ 1 + stopPct / 100 := by linarith
    split
    · rename_i hgt
      exact mul_le_mul_of_nonneg_right (le_of_lt hgt) hfac
    · exact le_refl _
  · intro stopPct₂ st days
    refine chain'_le_map_scanl _ _ ?_ days st
    intro a b
    simp only [btStopStep]
    cases b with
    | none => exact le_refl _
    | some p =>
      dsimp only
      split
      · exact le_refl _
      · split
        · exact le_max_left _ _
        · exact le_refl _

/-- Witness for C6 amended at `stopPct = -15`, one live tick and one
replay day. -/
theorem stop_line_monotone_amended_witness :
    List.Chain' (· ≤ ·)
      ((List.scanl Position.updatePrice (Position.init "BTC" 100 1) [130]).map
        (getStopLineP .trailing (-15) (-20))) ∧
    ∀ (stopPct₂ : ℚ) (st : ℚ × ℚ) (days : List (Option ℚ)),
      List.Chain' (· ≤ ·)
        ((List.scanl (btStopStep stopPct₂) st days).map Prod.snd) :=
  stop_line_monotone_amended (-15) (-20) (Position.init "BTC" 100 1) [130]
    (by norm_num)

/-- The stop-trigger rule as the spec states it (§4.4): under the
trailing policy a position is stopped exactly when its price is at or
below the stop line. -/
def specStopTrigger (stopPct initialStop : ℚ) (pos : Position) : Prop :=
  pos.current_price ≤ getStopLineP .trailing stopPct initialStop pos

/-- C7: for an open position with positive `max_price` under the
trailing policy, the implemented drawdown test
`(current - max)/max * 100 ≤ stopPct` triggers exactly when
`current ≤ max * (1 + stopPct/100)`, i.e. the code's check is equivalent
to the spec's price-below-stop-line rule. -/
theorem checkStopLoss_iff_stop_line (stopPct initialStop : ℚ) (pos : Position)
    (hopen : pos.status = .openP) (hmax : 0 < pos.max_price) :
    checkStopLoss .trailing stopPct initialStop pos = true ↔
      specStopTrigger stopPct initialStop pos := by
  unfold checkStopLoss specStopTrigger getStopLineP Position.getDrawdownFromMax
  rw [if_neg (by simp [hopen])]
  simp only [decide_eq_true_eq]
  rw [if_neg (ne_of_gt hmax)]
  rw [div_mul_eq_mul_div, div_le_iff₀ hmax]
  constructor <;> intro h <;> nlinarith

/-- Witness for C7: entry 100, peak 100, current 84, `stopPct = -15`:
the drawdown test fires, so the price is at or below the stop line 85. -/
theorem checkStopLoss_iff_stop_line_witness :
    specStopTrigger (-15) (-20)
      { coin := "BTC", entry_price := 100, amount := 1, max_price := 100,
        current_price := 84, status := .openP, stop_triggered_at := false,
        stop_price := none } :=
  (checkStopLoss_iff_stop_line (-15) (-20) _ rfl (by norm_num)).mp
    (by norm_num [checkStopLoss, Position.getDrawdownFromMax])

end StopLineClaims

/-! ## Signal generation (`src/analyzers/signal.py`) -/

inductive SignalType
  | buy
  | sell
  deriving DecidableEq, Repr

/-- The information content of the reason strings built in
`_generate_buy_signal` / `_generate_sell_signal`. -/
inductive Reason
  | fearGreedIndex (v : ℤ)
  | greedIndex (v : ℤ)
  | panicReversalConfirmed
  | greedReversalConfirmed
  | fundingPercentilePanic (p : ℚ)
  | fundingPercentileOverheat (p : ℚ)
  | longshortRatio (r : ℚ)
  deriving DecidableEq, Repr

structure Signal where
  coin : String
  stype : SignalType
  strength : Strength
  reasons : List Reason
  tags : List String
  deriving DecidableEq, Repr

/-- The funding percentile actually consulted by the signal builders:
`None` when the feature is off or the funding rate is missing, else
`_calculate_funding_percentile` on the coin's funding history
(signal.py:121-124, 178-181). -/
def signalFundingPct (useFunding : Bool) (fundingRate : Option ℚ)
    (fundingHistory : List ℚ) : Option ℚ :=
  if useFunding then
    fundingRate.bind (fun r => calcFundingPercentile fundingHistory r)
  else none

/-- `SignalGenerator._generate_buy_signal` (signal.py:97-151).  Python's
`if funding_pct and funding_pct < cutoff` is truthiness-sensitive: a
percentile of `0.0` is falsy and skips the upgrade, hence the `p ≠ 0`
conjunct. -/
def generateBuySignal (useReversal revEnabled : Bool) (K : ℕ)
    (revHistory : List ℤ) (useFunding : Bool) (panicCut : ℚ)
    (fundingRate : Option ℚ) (fundingHistory : List ℚ)
    (useLongshort : Bool) (lsExtreme : ℚ) (lsRatio : Option ℚ)
    (coin : String) (fgValue : ℤ) : Option Signal :=
  let isReversal := useReversal && revEnabled &&
    checkReversal revEnabled K revHistory fgValue
  let st1 := if isReversal then Strength.medium else Strength.weak
  let reasons1 := if isReversal then
      [Reason.fearGreedIndex fgValue, Reason.panicReversalConfirmed]
    else [Reason.fearGreedIndex fgValue]
  let tags1 := if isReversal then ["#拐点确认"] else ["#观察"]
  let fundingPct := signalFundingPct useFunding fundingRate fundingHistory
  let step2 : Strength × List Reason × List String :=
    match fundingPct with
    | some p =>
      if p ≠ 0 ∧ p < panicCut then
        (Strength.strong, reasons1 ++ [Reason.fundingPercentilePanic p],
          ["#抄底"])
      else (st1, reasons1, tags1)
    | none => (st1, reasons1, tags1)
  let step3 : Strength × List Reason :=
    if useLongshort then
      match lsRatio with
      | some ratio =>
        if ratio < lsExtreme then
          ((if step2.1 = Strength.strong then Strength.extreme else step2.1),
            step2.2.1 ++ [Reason.longshortRatio ratio])
        else (step2.1, step2.2.1)
      | none => (step2.1, step2.2.1)
    else (step2.1, step2.2.1)
  if step3.1 = Strength.medium ∨ step3.1 = Strength.strong ∨
      step3.1 = Strength.extreme ∨ isReversal = true then
    some { coin := coin, stype := .buy, strength := step3.1,
           reasons := step3.2, tags := step2.2.2 }
  else none

/-- `SignalGenerator._generate_sell_signal` (signal.py:153-198); same
truthiness caveat on the funding percentile. -/
def generateSellSignal (useReversal revEnabled : Bool) (K : ℕ)
    (revHistory : List ℤ) (useFunding : Bool) (greedCut : ℚ)
    (fundingRate : Option ℚ) (fundingHistory : List ℚ)
    (coin : String) (fgValue : ℤ) : Option Signal :=
  let isReversal := useReversal && revEnabled &&
    checkReversal revEnabled K revHistory fgValue
  let st1 := if isReversal then Strength.medium else Strength.weak
  let reasons1 := if isReversal then
      [Reason.greedIndex fgValue, Reason.greedReversalConfirmed]
    else [Reason.greedIndex fgValue]
  let tags1 := if isReversal then ["#拐点确认", "#派发区"] else ["#观察"]
  let fundingPct := signalFundingPct useFunding fundingRate fundingHistory
  let step2 : Strength × List Reason × List String :=
    match fundingPct with
    | some p =>
      if p ≠ 0 ∧ p > greedCut then
        (Strength.strong, reasons1 ++ [Reason.fundingPercentileOverheat p],
          ["#派发区", "#过热"])
      else (st1, reasons1, tags1)
    | none => (st1, reasons1, tags1)
  if step2.1 = Strength.medium ∨ step2.1 = Strength.strong ∨
      step2.1 = Strength.extreme ∨ isReversal = true then
    some { coin := coin, stype := .sell, strength := step2.1,
           reasons := step2.2.1, tags := step2.2.2 }
  else none

section SignalClaims

/-- C1: with the greed percentile cutoff at its configured value 85, a
SELL candidate is emitted only if a reversal was confirmed or the
computed funding percentile is strictly above 85; with no confirmed
reversal and a percentile not exceeding 85 it is never emitted. -/
theorem sell_emission_gate (useReversal revEnabled : Bool) (K : ℕ)
    (revHistory : List ℤ) (useFunding : Bool) (fundingRate : Option ℚ)
    (fundingHistory : List ℚ) (coin : String) (fgValue : ℤ) :
    (∀ s, generateSellSignal useReversal revEnabled K revHistory useFunding 85
        fundingRate fundingHistory coin fgValue = some s →
      (useReversal && revEnabled &&
          checkReversal revEnabled K revHistory fgValue) = true ∨
        ∃ p, signalFundingPct useFunding fundingRate fundingHistory = some p ∧
          85 < p) ∧
    ((useReversal && revEnabled &&
        checkReversal revEnabled K revHistory fgValue) = false →
      (∀ p, signalFundingPct useFunding fundingRate fundingHistory = some p →
        p ≤ 85) →
      generateSellSignal useReversal revEnabled K revHistory useFunding 85
        fundingRate fundingHistory coin fgValue = none) := by
  constructor
  · intro s hs
    by_cases hrev : (useReversal && revEnabled &&
        checkReversal revEnabled K revHistory fgValue) = true
    · exact Or.inl hrev
    · right
      rw [Bool.not_eq_true] at hrev
      simp only [generateSellSignal, hrev] at hs
      cases hp : signalFundingPct useFunding fundingRate fundingHistory with
      | none =>
        rw [hp] at hs
        simp at hs
      | some p =>
        by_cases hcond : p ≠ 0 ∧ p > 85
        · exact ⟨p, rfl, hcond.2⟩
        · simp [hp, hcond] at hs
  · intro hrev hple
    simp only [generateSellSignal, hrev]
    cases hp : signalFundingPct useFunding fundingRate fundingHistory with
    | none => simp
    | some p =>
      have hcond : ¬ (p ≠ 0 ∧ p > 85) := by
        rintro ⟨-, hgt⟩
        exact absurd (hple p hp) (not_le.mpr hgt)
      simp [hcond]

/-- Witness for C1: funding feature off, no reversal: no SELL emitted. -/
theorem sell_emission_gate_witness :
    generateSellSignal false true 2 [] false 85 none [] "BTC" 80 = none :=
  (sell_emission_gate false true 2 [] false none [] "BTC" 80).2 rfl
    (by intro p hp; simp [signalFundingPct] at hp)

/-- C3 as the code actually behaves: a funding percentile of exactly 0
(funding rate below all 24 history samples) is below the panic cutoff
15, yet the BUY candidate is *not* upgraded — Python's
`if funding_pct and funding_pct < cutoff` treats `0.0` as falsy — so
with no reversal nothing is emitted at all. -/
theorem buy_percentile_zero_dropped :
    calcFundingPercentile (List.replicate 24 (1/100)) (1/1000) = some 0 ∧
    (0 : ℚ) < 15 ∧
    generateBuySignal false true 2 [] true 15 (some (1/1000))
      (List.replicate 24 (1/100)) false 3 none "BTC" 10 = none := by
  have hfil : (List.replicate 24 ((1:ℚ)/100)).filter
      (fun x => x < 1/1000) = [] := by
    rw [List.filter_eq_nil_iff]
    intro a ha
    have h := List.eq_of_mem_replicate ha
    subst h
    norm_num
  have hpct : calcFundingPercentile (List.replicate 24 (1/100)) (1/1000)
      = some 0 := by
    rw [calcFundingPercentile, if_neg (by simp)]
    simp only [hfil, List.length_nil, List.length_replicate, Nat.cast_zero,
      Nat.cast_ofNat, zero_div, zero_mul, Option.some.injEq]
    exact pyRound_zero_one
  refine ⟨hpct, by norm_num, ?_⟩
  have hsf : signalFundingPct true (some (1/1000)) (List.replicate 24 (1/100))
      = some 0 := by
    simp only [signalFundingPct, if_true, Option.some_bind]
    exact hpct
  simp only [generateBuySignal, hsf]
  norm_num
  rintro (h | h | h) <;> exact absurd h (by decide)

end SignalClaims

/-! ## Backtest return computation (`backtest.py:508-606`) -/

/-- `result['exit_reason']`: only `hold` (initial) and `stop_loss` are
ever assigned by `calculate_returns`. -/
inductive ExitReason
  | hold
  | stopLoss
  deriving DecidableEq, Repr

/-- The per-signal accumulator of the simulation loop in
`calculate_returns`. -/
structure SimState where
  maxPrice : ℚ
  stopPrice : ℚ
  isStopped : Bool
  maxDrawdown : ℚ
  exitReason : ExitReason
  exitPrice : ℚ
  exitDay : ℕ
  returnsNet : List (ℕ × ℚ)
  returnsGross : List (ℕ × ℚ)
  deriving DecidableEq, Repr

/-- One day of the holding loop (backtest.py:556-586).  A missing day
price — or, by Python truthiness, a zero one — is skipped; after a stop
the loop has broken, modelled by the `isStopped` guard. -/
def simDay (stopType : StopType) (holdDays : List ℕ) (entry totalCost stopPct : ℚ)
    (prices : ℕ → Option ℚ) (st : SimState) (day : ℕ) : SimState :=
  if st.isStopped then st
  else match prices day with
  | none => st
  | some p =>
    if p = 0 then st
    else
      let m := if p > st.maxPrice then p else st.maxPrice
      let stop := if p > st.maxPrice ∧ stopType = .trailing then
          max st.stopPrice (m * (1 + stopPct / 100))
        else st.stopPrice
      let mdd := min st.maxDrawdown ((p - m) / m * 100)
      if p ≤ stop then
        { st with
          maxPrice := m
          stopPrice := stop
          maxDrawdown := mdd
          isStopped := true
          exitReason := .stopLoss
          exitPrice := stop
          exitDay := day }
      else if day ∈ holdDays then
        { st with
          maxPrice := m
          stopPrice := stop
          maxDrawdown := mdd
          returnsNet := st.returnsNet ++
            [(day, pyRound ((p - entry) / entry * 100 - totalCost) 2)]
          returnsGross := st.returnsGross ++
            [(day, pyRound ((p - entry) / entry * 100) 2)] }
      else { st with maxPrice := m, stopPrice := stop, maxDrawdown := mdd }

/-- `BacktestResult` fields produced per signal. -/
structure BtResult where
  exitReason : ExitReason
  exitPrice : ℚ
  exitDay : ℕ
  maxDrawdown : ℚ
  returnsNet : List (ℕ × ℚ)
  returnsGross : List (ℕ × ℚ)
  feeDeducted : ℚ
  finalReturn : ℚ
  finalReturnGross : ℚ
  totalCost : ℚ
  deriving DecidableEq, Repr

/-- `calculate_returns` (backtest.py:508-606) for one BUY signal:
round-trip cost, the day-by-day holding loop up to the longest horizon,
exit at the final day's price when never stopped, and the rounded
net/gross final returns. -/
def calculateReturnsSingle (stopType : StopType) (stopPct : ℚ)
    (feeRate slippage executionDelay : ℚ) (holdDays : List ℕ)
    (prices : ℕ → Option ℚ) (entry : ℚ) : BtResult :=
  let roundTripFee := feeRate * 2
  let totalCost := roundTripFee + slippage + executionDelay
  let maxHoldDays := holdDays.foldl max 0
  let init : SimState :=
    { maxPrice := entry, stopPrice := entry * (1 + stopPct / 100),
      isStopped := false, maxDrawdown := 0, exitReason := .hold,
      exitPrice := 0, exitDay := 0, returnsNet := [], returnsGross := [] }
  let final := (List.range' 1 maxHoldDays).foldl
    (simDay stopType holdDays entry totalCost stopPct prices) init
  let final2 :=
    if final.isStopped then final
    else match prices maxHoldDays with
      | some fp =>
        if fp = 0 then final
        else { final with exitPrice := fp, exitDay := maxHoldDays }
      | none => final
  let gross := (final2.exitPrice - entry) / entry * 100
  let net := gross - totalCost
  { exitReason := final2.exitReason, exitPrice := final2.exitPrice,
    exitDay := final2.exitDay, maxDrawdown := final2.maxDrawdown,
    returnsNet := final2.returnsNet, returnsGross := final2.returnsGross,
    feeDeducted := roundTripFee, finalReturn := pyRound net 2,
    finalReturnGross := pyRound gross 2, totalCost := totalCost }

/-- The daily close prices of spec scenario D: 100, 130, 105 on days
1-3, nothing afterwards. -/
def scenarioDPrices : ℕ → Option ℚ := fun d =>
  if d = 1 then some 100
  else if d = 2 then some 130
  else if d = 3 then some 105
  else none

section BacktestClaims

lemma pyRound_of_mul_eq_intCast (q : ℚ) (n : ℕ) (z : ℤ)
    (h : q * 10 ^ n = (z : ℚ)) : pyRound q n = q := by
  unfold pyRound roundHalfEven
  rw [h, Int.fract_intCast, if_neg (by norm_num), round_intCast]
  rw [div_eq_iff (by positivity : ((10 : ℚ) ^ n) ≠ 0)]
  exact h.symm

/-- C8: spec scenario D.  Entry 100, trailing stop at −15%, daily prices
100, 130, 105, horizon 7 (beyond day 3): the replay's stop line runs
85, 110.5, 110.5; day 3's price 105 ≤ 110.5 stops the trade at the stop
line (not the day price); exit day 3, gross final return 10.5%, net
final return 10.5% minus the total trading cost (0.2% fees + 0.1%
slippage + 0 delay). -/
theorem backtest_scenario_d :
    (calculateReturnsSingle .trailing (-15) (1/10) (1/10) 0 [7]
        scenarioDPrices 100).exitReason = ExitReason.stopLoss ∧
    (calculateReturnsSingle .trailing (-15) (1/10) (1/10) 0 [7]
        scenarioDPrices 100).exitPrice = 221/2 ∧
    (calculateReturnsSingle .trailing (-15) (1/10) (1/10) 0 [7]
        scenarioDPrices 100).exitDay = 3 ∧
    (calculateReturnsSingle .trailing (-15) (1/10) (1/10) 0 [7]
        scenarioDPrices 100).finalReturnGross = 21/2 ∧
    (calculateReturnsSingle .trailing (-15) (1/10) (1/10) 0 [7]
        scenarioDPrices 100).finalReturn = 21/2 - ((1/10) * 2 + (1/10) + 0) ∧
    ((List.scanl (btStopStep (-15)) (100, 85)
        [some 100, some 130, some 105]).map Prod.snd).tail
      = [85, 221/2, 221/2] := by
  have e1 : ∀ tc : ℚ, simDay .trailing [7] 100 tc (-15) scenarioDPrices
      ⟨100, 85, false, 0, .hold, 0, 0, [], []⟩ 1
      = ⟨100, 85, false, 0, .hold, 0, 0, [], []⟩ := by
    intro tc
    norm_num [simDay, scenarioDPrices, min_def, max_def]
  have e2 : ∀ tc : ℚ, simDay .trailing [7] 100 tc (-15) scenarioDPrices
      ⟨100, 85, false, 0, .hold, 0, 0, [], []⟩ 2
      = ⟨130, 221/2, false, 0, .hold, 0, 0, [], []⟩ := by
    intro tc
    norm_num [simDay, scenarioDPrices, min_def, max_def]
  have e3 : ∀ tc : ℚ, simDay .trailing [7] 100 tc (-15) scenarioDPrices
      ⟨130, 221/2, false, 0, .hold, 0, 0, [], []⟩ 3
      = ⟨130, 221/2, true, -250/13, .stopLoss, 221/2, 3, [], []⟩ := by
    intro tc
    norm_num [simDay, scenarioDPrices, min_def, max_def]
  have e4 : ∀ (tc : ℚ) (d : ℕ),
      simDay .trailing [7] 100 tc (-15) scenarioDPrices
        ⟨130, 221/2, true, -250/13, .stopLoss, 221/2, 3, [], []⟩ d
      = ⟨130, 221/2, true, -250/13, .stopLoss, 221/2, 3, [], []⟩ := by
    intro tc d
    simp [simDay]
  have hfold : (List.range' 1 (List.foldl max 0 [7])).foldl
      (simDay .trailing [7] 100 ((1/10) * 2 + (1/10) + 0) (-15)
        scenarioDPrices)
      ⟨100, 100 * (1 + -15 / 100), false, 0, .hold, 0, 0, [], []⟩
      = ⟨130, 221/2, true, -250/13, .stopLoss, 221/2, 3, [], []⟩ := by
    rw [show List.range' 1 (List.foldl max 0 [7]) = [1, 2, 3, 4, 5, 6, 7]
      from rfl]
    rw [show (100 : ℚ) * (1 + -15 / 100) = 85 from by norm_num]
    simp only [List.foldl_cons, List.foldl_nil, e1, e2, e3, e4]
  have hb1 : btStopStep (-15) (100, 85) (some 100) = (100, 85) := by
    norm_num [btStopStep]
  have hb2 : btStopStep (-15) (100, 85) (some 130) = (130, 221/2) := by
    norm_num [btStopStep, max_def]
  have hb3 : btStopStep (-15) (130, 221/2) (some 105) = (130, 221/2) := by
    norm_num [btStopStep]
  refine ⟨?_, ?_, ?_, ?_, ?_, ?_⟩
  · simp only [calculateReturnsSingle, hfold, if_true]
  · simp only [calculateReturnsSingle, hfold, if_true]
  · simp only [calculateReturnsSingle, hfold, if_true]
  · simp only [calculateReturnsSingle, hfold, if_true]
    rw [pyRound_of_mul_eq_intCast _ 2 1050 (by norm_num)]
    norm_num
  · simp only [calculateReturnsSingle, hfold, if_true]
    rw [pyRound_of_mul_eq_intCast _ 2 1020 (by norm_num)]
    norm_num
  · simp only [List.scanl_cons, List.singleton_append, List.scanl_nil,
      hb1, hb2, hb3, List.map_cons, List.map_nil, List.tail_cons]

end BacktestClaims

/-! ## Train/test validation (`backtest.py:781-891`) -/

/-- Python `int()`: truncation toward zero. -/
def pyInt (q : ℚ) : ℤ := if 0 ≤ q then ⌊q⌋ else ⌈q⌉

/-- The per-result fields consulted by `_run_train_test_validation`:
the signal date (totally ordered) and the cost-adjusted final return. -/
structure BtResultRow where
  date : ℕ
  finalReturn : ℚ
  deriving DecidableEq, Repr

inductive OverfitRisk
  | high
  | medium
  | low
  deriving DecidableEq, Repr

/-- `_calculate_subset_stats` (backtest.py:868-891) reduced to the two
statistics read back by the caller, `(avg_return, win_rate)`; an empty
subset yields `{}`, read back as `(0, 0)` via `.get(..., 0)`. -/
def subsetStats (results : List BtResultRow) : ℚ × ℚ :=
  if results = [] then (0, 0)
  else
    let finalReturns := results.map (fun r => r.finalReturn)
    let winCount := (finalReturns.filter (fun r => 0 < r)).length
    (finalReturns.sum / (results.length : ℚ),
      (winCount : ℚ) / (results.length : ℚ) * 100)

structure ValidationReport where
  train : List BtResultRow
  test : List BtResultRow
  degradation : ℚ
  winrateDrop : ℚ
  overfittingRisk : OverfitRisk
  winrateWarning : Bool
  deriving Repr

/-- `_run_train_test_validation` (backtest.py:781-866): sort results by
date ascending, split at `int(N * trainRatio)` into a training prefix
and test suffix, compare the halves, classify overfitting risk, and
raise the win-rate warning when the drop exceeds 10 points. -/
def runTrainTestValidation (results : List BtResultRow)
    (trainRatio : ℚ) : ValidationReport :=
  let sorted := List.insertionSort (fun a b => a.date ≤ b.date) results
  let splitIdx := (pyInt ((results.length : ℚ) * trainRatio)).toNat
  let train := sorted.take splitIdx
  let test := sorted.drop splitIdx
  let trainStats := subsetStats train
  let testStats := subsetStats test
  let degradation := trainStats.1 - testStats.1
  let winrateDrop := trainStats.2 - testStats.2
  { train := train
    test := test
    degradation := degradation
    winrateDrop := winrateDrop
    overfittingRisk := if degradation > 2 then .high
      else if degradation > 1 then .medium else .low
    winrateWarning := decide (winrateDrop > 10) }

section ValidationClaims

instance dateLeTotal : IsTotal BtResultRow (fun a b => a.date ≤ b.date) :=
  ⟨fun a b => Nat.le_total a.date b.date⟩

instance dateLeTrans : IsTrans BtResultRow (fun a b => a.date ≤ b.date) :=
  ⟨fun _ _ _ => Nat.le_trans⟩

lemma riskClassification (d : ℚ) :
    ((if d > 2 then OverfitRisk.high
        else if d > 1 then OverfitRisk.medium else OverfitRisk.low)
      = OverfitRisk.high ↔ 2 < d) ∧
    ((if d > 2 then OverfitRisk.high
        else if d > 1 then OverfitRisk.medium else OverfitRisk.low)
      = OverfitRisk.medium ↔ 1 < d ∧ d ≤ 2) ∧
    ((if d > 2 then OverfitRisk.high
        else if d > 1 then OverfitRisk.medium else OverfitRisk.low)
      = OverfitRisk.low ↔ d ≤ 1) := by
  by_cases h2 : d > 2
  · simp only [if_pos h2]
    refine ⟨by simp [h2], by simp [not_le.mpr h2],
      by simp [not_le.mpr (show (1 : ℚ) < d from by linarith)]⟩
  · by_cases h1 : d > 1
    · simp only [if_neg h2, if_pos h1]
      exact ⟨by simp [h2], by simp [h1, not_lt.mp h2],
        by simp [not_le.mpr h1]⟩
    · simp only [if_neg h2, if_neg h1]
      exact ⟨by simp [h2], by simp [h1], by simp [not_lt.mp h1]⟩

/-- C9: the validation splits the date-sorted results into a training
prefix and test suffix covering everything, every training date is at
most every test date, `degradation` is the difference of the halves'
average returns, the risk label is `HIGH` iff `degradation > 2`,
`MEDIUM` iff `1 < degradation ≤ 2`, else `LOW`, and the win-rate warning
fires iff the win-rate drop exceeds 10 points. -/
theorem trainTestValidation_spec (results : List BtResultRow) (r : ℚ)
    (_hne : results ≠ []) (_hr : 0 ≤ r) :
    (runTrainTestValidation results r).train.length +
        (runTrainTestValidation results r).test.length = results.length ∧
    ((runTrainTestValidation results r).train ++
        (runTrainTestValidation results r).test).Perm results ∧
    List.Sorted (fun a b => a.date ≤ b.date)
      ((runTrainTestValidation results r).train ++
        (runTrainTestValidation results r).test) ∧
    (∀ a ∈ (runTrainTestValidation results r).train,
      ∀ b ∈ (runTrainTestValidation results r).test, a.date ≤ b.date) ∧
    (runTrainTestValidation results r).degradation =
      (subsetStats (runTrainTestValidation results r).train).1 -
        (subsetStats (runTrainTestValidation results r).test).1 ∧
    ((runTrainTestValidation results r).overfittingRisk = .high ↔
      2 < (runTrainTestValidation results r).degradation) ∧
    ((runTrainTestValidation results r).overfittingRisk = .medium ↔
      1 < (runTrainTestValidation results r).degradation ∧
        (runTrainTestValidation results r).degradation ≤ 2) ∧
    ((runTrainTestValidation results r).overfittingRisk = .low ↔
      (runTrainTestValidation results r).degradation ≤ 1) ∧
    ((runTrainTestValidation results r).winrateWarning = true ↔
      10 < (runTrainTestValidation results r).winrateDrop) := by
  have hperm := List.perm_insertionSort
    (fun (a b : BtResultRow) => a.date ≤ b.date) results
  have hsorted := List.sorted_insertionSort
    (fun (a b : BtResultRow) => a.date ≤ b.date) results
  unfold runTrainTestValidation
  dsimp only
  set sorted := List.insertionSort (fun a b => a.date ≤ b.date) results
    with hsortedDef
  set idx := (pyInt ((results.length : ℚ) * r)).toNat with hidx
  have htd : sorted.take idx ++ sorted.drop idx = sorted :=
    List.take_append_drop idx sorted
  refine ⟨?_, ?_, ?_, ?_, rfl, ?_, ?_, ?_, ?_⟩
  · rw [← List.length_append, htd]
    exact hperm.length_eq
  · rw [htd]
    exact hperm
  · rw [htd]
    exact hsorted
  · have hpw : List.Pairwise (fun a b => a.date ≤ b.date)
        (sorted.take idx ++ sorted.drop idx) := by
      rw [htd]
      exact hsorted
    exact (List.pairwise_append.mp hpw).2.2
  · exact (riskClassification _).1
  · exact (riskClassification _).2.1
  · exact (riskClassification _).2.2
  · simp only [decide_eq_true_eq]

/-- Witness for C9 at three signals, ratio 0.7: split index 2. -/
theorem trainTestValidation_spec_witness :
    (runTrainTestValidation [⟨2, 5⟩, ⟨1, 10⟩, ⟨3, 1⟩] (7/10)).train.length +
      (runTrainTestValidation [⟨2, 5⟩, ⟨1, 10⟩, ⟨3, 1⟩] (7/10)).test.length
      = 3 :=
  (trainTestValidation_spec [⟨2, 5⟩, ⟨1, 10⟩, ⟨3, 1⟩] (7/10)
    (by simp) (by norm_num)).1

end ValidationClaims

/-! ## Tracker price updates (`position_tracker.py:164-233`) -/

/-- Event payload pushed to `stopped` (position_tracker.py:217-224). -/
structure StoppedEvent where
  coin : String
  entry_price : ℚ
  stop_price : ℚ
  return_pct : ℚ
  max_price : ℚ
  drawdown : ℚ
  deriving DecidableEq, Repr

/-- Event payload pushed to `new_highs` (position_tracker.py:189-194). -/
structure NewHighEvent where
  coin : String
  entry_price : ℚ
  new_high : ℚ
  return_pct : ℚ
  deriving DecidableEq, Repr

/-- Event payload pushed to `stop_line_raised`
(position_tracker.py:201-207). -/
structure StopRaisedEvent where
  coin : String
  old_stop : ℚ
  new_stop : ℚ
  raise_pct : ℚ
  current_price : ℚ
  deriving DecidableEq, Repr

/-- The event dictionary returned by `update_prices`. -/
structure UpdateEvents where
  stopped : List StoppedEvent
  new_highs : List NewHighEvent
  stop_line_raised : List StopRaisedEvent
  deriving DecidableEq, Repr

/-- `PositionTracker.get_stop_line` (position_tracker.py:249-258):
`None` for an untracked coin. -/
def getStopLine (stopType : StopType) (stopPct initialStop : ℚ)
    (positions : String → Option Position) (coin : String) : Option ℚ :=
  (positions coin).map (getStopLineP stopType stopPct initialStop)

/-- One iteration of the `update_prices` loop
(position_tracker.py:173-226) in state-passing form.  Each of the three
events is produced at most once per entry, gathered as an `Option`; the
`stop_line_raised` guard keeps Python's truthiness (a stop line of `0`
is falsy and suppresses the event), and the in-place mutation of the
dict's `Position` becomes a function update at `coin`. -/
def updateOne (stopType : StopType) (stopPct initialStop : ℚ)
    (st : (String → Option Position) × UpdateEvents)
    (entry : String × ℚ) : (String → Option Position) × UpdateEvents :=
  let positions := st.1
  let events := st.2
  let coin := entry.1
  let price := entry.2
  match positions coin with
  | none => st
  | some pos =>
    let oldMax := pos.max_price
    let oldStopLine := getStopLine stopType stopPct initialStop positions coin
    let pos1 := pos.updatePrice price
    let positions1 := fun c => if c = coin then some pos1 else positions c
    let newMax := pos1.max_price
    let newStopLine := getStopLine stopType stopPct initialStop positions1 coin
    let newHighEvent : Option NewHighEvent :=
      if newMax > oldMax ∧ oldMax = pos.entry_price then
        some { coin := coin
               entry_price := pos.entry_price
               new_high := newMax
               return_pct := pos1.getReturnPct }
      else none
    let stopRaisedEvent : Option StopRaisedEvent :=
      match oldStopLine, newStopLine with
      | some oldS, some newS =>
        if oldS ≠ 0 ∧ newS ≠ 0 ∧ newS > oldS ∧
            (newS - oldS) / oldS * 100 ≥ 2 then
          some { coin := coin
                 old_stop := oldS
                 new_stop := newS
                 raise_pct := (newS - oldS) / oldS * 100
                 current_price := price }
        else none
      | _, _ => none
    let stopTriggered := checkStopLoss stopType stopPct initialStop pos1
    let pos2 := if stopTriggered then
        { pos1 with
          status := .stopped
          stop_triggered_at := true
          stop_price := some price }
      else pos1
    let stoppedEvent : Option StoppedEvent :=
      if stopTriggered then
        some { coin := coin
               entry_price := pos2.entry_price
               stop_price := price
               return_pct := pos2.getReturnPct
               max_price := pos2.max_price
               drawdown := pos2.getDrawdownFromMax }
      else none
    (fun c => if c = coin then some pos2 else positions c,
      { stopped := events.stopped ++ stoppedEvent.toList
        new_highs := events.new_highs ++ newHighEvent.toList
        stop_line_raised := events.stop_line_raised ++
          stopRaisedEvent.toList })

/-- `PositionTracker.update_prices` (position_tracker.py:164-233):
process the price map entries in order, starting from empty event
lists. -/
def updatePrices (stopType : StopType) (stopPct initialStop : ℚ)
    (positions : String → Option Position)
    (prices : List (String × ℚ)) :
    (String → Option Position) × UpdateEvents :=
  prices.foldl (updateOne stopType stopPct initialStop)
    (positions, ⟨[], [], []⟩)

section TrackerClaims

variable (stopType : StopType) (stopPct initialStop : ℚ)

lemma updateOne_untracked (m : String → Option Position) (ev : UpdateEvents)
    (coin : String) (price : ℚ) (h : m coin = none) :
    updateOne stopType stopPct initialStop (m, ev) (coin, price) = (m, ev) := by
  simp [updateOne, h]

lemma updateOne_map_other (m : String → Option Position) (ev : UpdateEvents)
    (coin : String) (price : ℚ) (c : String) (hne : ¬ c = coin) :
    (updateOne stopType stopPct initialStop (m, ev) (coin, price)).1 c
      = m c := by
  simp only [updateOne]
  cases hm : m coin with
  | none => rfl
  | some pos => simp [hne]

lemma updateOne_map_none (m : String → Option Position) (ev : UpdateEvents)
    (en : String × ℚ) (c : String) (h : m c = none) :
    (updateOne stopType stopPct initialStop (m, ev) en).1 c = none := by
  obtain ⟨coin, price⟩ := en
  by_cases hc : c = coin
  · subst hc
    rw [updateOne_untracked stopType stopPct initialStop m ev c price h]
    exact h
  · rw [updateOne_map_other stopType stopPct initialStop m ev coin price c hc]
    exact h

lemma mem_toList_ite_some {α : Type} (cond : Prop) [Decidable cond]
    (a e : α) (h : e ∈ (if cond then some a else none).toList) : e = a := by
  split at h <;> simp_all

lemma updateOne_event_coins (m : String → Option Position)
    (ev : UpdateEvents) (coin : String) (price : ℚ) (c : String)
    (hc : ¬ coin = c)
    (hst : ∀ e ∈ ev.stopped, e.coin ≠ c)
    (hnh : ∀ e ∈ ev.new_highs, e.coin ≠ c)
    (hsr : ∀ e ∈ ev.stop_line_raised, e.coin ≠ c) :
    (∀ e ∈ (updateOne stopType stopPct initialStop
        (m, ev) (coin, price)).2.stopped, e.coin ≠ c) ∧
    (∀ e ∈ (updateOne stopType stopPct initialStop
        (m, ev) (coin, price)).2.new_highs, e.coin ≠ c) ∧
    (∀ e ∈ (updateOne stopType stopPct initialStop
        (m, ev) (coin, price)).2.stop_line_raised, e.coin ≠ c) := by
  simp only [updateOne]
  cases hm : m coin with
  | none => exact ⟨hst, hnh, hsr⟩
  | some pos =>
    dsimp only
    refine ⟨?_, ?_, ?_⟩
    · intro e he
      rcases List.mem_append.mp he with h' | h'
      · exact hst e h'
      · have he' := mem_toList_ite_some _ _ _ h'
        subst he'
        simpa using hc
    · intro e he
      rcases List.mem_append.mp he with h' | h'
      · exact hnh e h'
      · have he' := mem_toList_ite_some _ _ _ h'
        subst he'
        simpa using hc
    · intro e he
      rcases List.mem_append.mp he with h' | h'
      · exact hsr e h'
      · revert h'
        split
        · intro h'
          have he' := mem_toList_ite_some _ _ _ h'
          subst he'
          simpa using hc
        · intro h'
          simp at h'

lemma foldl_map_none (prices : List (String × ℚ)) :
    ∀ (m : String → Option Position) (ev : UpdateEvents) (c : String),
      m c = none →
      ((prices.foldl (updateOne stopType stopPct initialStop) (m, ev)).1 c
        = none) := by
  induction prices with
  | nil => intro m ev c h; exact h
  | cons en rest ih =>
    intro m ev c h
    rw [List.foldl_cons]
    exact ih (updateOne stopType stopPct initialStop (m, ev) en).1
      (updateOne stopType stopPct initialStop (m, ev) en).2 c
      (updateOne_map_none stopType stopPct initialStop m ev en c h)

lemma foldl_event_coins (prices : List (String × ℚ)) :
    ∀ (m : String → Option Position) (ev : UpdateEvents) (c : String),
      m c = none →
      (∀ e ∈ ev.stopped, e.coin ≠ c) →
      (∀ e ∈ ev.new_highs, e.coin ≠ c) →
      (∀ e ∈ ev.stop_line_raised, e.coin ≠ c) →
      (∀ e ∈ (prices.foldl (updateOne stopType stopPct initialStop)
          (m, ev)).2.stopped, e.coin ≠ c) ∧
      (∀ e ∈ (prices.foldl (updateOne stopType stopPct initialStop)
          (m, ev)).2.new_highs, e.coin ≠ c) ∧
      (∀ e ∈ (prices.foldl (updateOne stopType stopPct initialStop)
          (m, ev)).2.stop_line_raised, e.coin ≠ c) := by
  induction prices with
  | nil => intro m ev c _ hst hnh hsr; exact ⟨hst, hnh, hsr⟩
  | cons en rest ih =>
    intro m ev c h hst hnh hsr
    obtain ⟨coin, price⟩ := en
    rw [List.foldl_cons]
    by_cases hc : coin = c
    · subst hc
      rw [updateOne_untracked stopType stopPct initialStop m ev coin price h]
      exact ih m ev coin h hst hnh hsr
    · have hev := updateOne_event_coins stopType stopPct initialStop
        m ev coin price c hc hst hnh hsr
      exact ih (updateOne stopType stopPct initialStop (m, ev) (coin, price)).1
        (updateOne stopType stopPct initialStop (m, ev) (coin, price)).2 c
        (updateOne_map_none stopType stopPct initialStop m ev (coin, price) c h)
        hev.1 hev.2.1 hev.2.2

lemma foldl_filter_untracked (prices : List (String × ℚ)) :
    ∀ (m : String → Option Position) (ev : UpdateEvents) (c : String),
      m c = none →
      (prices.filter (fun en => en.1 ≠ c)).foldl
          (updateOne stopType stopPct initialStop) (m, ev)
        = prices.foldl (updateOne stopType stopPct initialStop) (m, ev) := by
  induction prices with
  | nil => intro m ev c _; rfl
  | cons en rest ih =>
    intro m ev c h
    obtain ⟨coin, price⟩ := en
    by_cases hc : coin = c
    · subst hc
      rw [List.filter_cons_of_neg (by simp)]
      rw [List.foldl_cons,
        updateOne_untracked stopType stopPct initialStop m ev coin price h]
      exact ih m ev coin h
    · rw [List.filter_cons_of_pos (by simp [hc])]
      rw [List.foldl_cons, List.foldl_cons]
      exact ih (updateOne stopType stopPct initialStop (m, ev) (coin, price)).1
        (updateOne stopType stopPct initialStop (m, ev) (coin, price)).2 c
        (updateOne_map_none stopType stopPct initialStop m ev (coin, price) c h)

lemma foldl_map_other (prices : List (String × ℚ)) :
    ∀ (m : String → Option Position) (ev : UpdateEvents) (c : String),
      (∀ p, (c, p) ∉ prices) →
      ((prices.foldl (updateOne stopType stopPct initialStop) (m, ev)).1 c
        = m c) := by
  induction prices with
  | nil => intro m ev c _; rfl
  | cons en rest ih =>
    intro m ev c h
    obtain ⟨coin, price⟩ := en
    have hc : ¬ c = coin := by
      intro hcc
      subst hcc
      exact h price (List.mem_cons_self _ _)
    have hrest : ∀ p, (c, p) ∉ rest :=
      fun p hp => h p (List.mem_cons_of_mem _ hp)
    rw [List.foldl_cons]
    calc (rest.foldl (updateOne stopType stopPct initialStop)
          (updateOne stopType stopPct initialStop (m, ev) (coin, price))).1 c
        = (updateOne stopType stopPct initialStop
            (m, ev) (coin, price)).1 c :=
          ih (updateOne stopType stopPct initialStop (m, ev) (coin, price)).1
            (updateOne stopType stopPct initialStop (m, ev) (coin, price)).2
            c hrest
      _ = m c := updateOne_map_other stopType stopPct initialStop
            m ev coin price c hc

/-- C10: `update_prices` is frame-correct.  A price entry for an asset
with no tracked position creates no position, emits no event for that
asset, and removing all such entries leaves the whole result unchanged;
a tracked asset absent from the price map keeps its `Position` record
(all fields) untouched. -/
theorem updatePrices_frame (positions : String → Option Position)
    (prices : List (String × ℚ)) :
    (∀ c, positions c = none →
      (updatePrices stopType stopPct initialStop positions prices).1 c
          = none ∧
      (∀ e ∈ (updatePrices stopType stopPct initialStop positions
          prices).2.stopped, e.coin ≠ c) ∧
      (∀ e ∈ (updatePrices stopType stopPct initialStop positions
          prices).2.new_highs, e.coin ≠ c) ∧
      (∀ e ∈ (updatePrices stopType stopPct initialStop positions
          prices).2.stop_line_raised, e.coin ≠ c) ∧
      updatePrices stopType stopPct initialStop positions
          (prices.filter (fun en => en.1 ≠ c))
        = updatePrices stopType stopPct initialStop positions prices) ∧
    (∀ c, (∀ p, (c, p) ∉ prices) →
      (updatePrices stopType stopPct initialStop positions prices).1 c
        = positions c) := by
  constructor
  · intro c hc
    have hev := foldl_event_coins stopType stopPct initialStop prices
      positions ⟨[], [], []⟩ c hc (by simp) (by simp) (by simp)
    exact ⟨foldl_map_none stopType stopPct initialStop prices
        positions ⟨[], [], []⟩ c hc,
      hev.1, hev.2.1, hev.2.2,
      foldl_filter_untracked stopType stopPct initialStop prices
        positions ⟨[], [], []⟩ c hc⟩
  · intro c hc
    exact foldl_map_other stopType stopPct initialStop prices
      positions ⟨[], [], []⟩ c hc

end TrackerClaims

/-- A tracker holding exactly one position, on BTC. -/
def btcOnlyMap : String → Option Position :=
  fun c => if c = "BTC" then some (Position.init "BTC" 100 1) else none

/-- Witness for C10: a price entry for untracked ETH leaves ETH
untracked, and BTC (absent from the price map) keeps its position. -/
theorem updatePrices_frame_witness :
    (updatePrices .trailing (-15) (-20) btcOnlyMap [("ETH", 50)]).1 "ETH"
        = none ∧
    (updatePrices .trailing (-15) (-20) btcOnlyMap [("ETH", 50)]).1 "BTC"
        = btcOnlyMap "BTC" :=
  ⟨((updatePrices_frame .trailing (-15) (-20) btcOnlyMap [("ETH", 50)]).1
      "ETH" (by simp [btcOnlyMap])).1,
    (updatePrices_frame .trailing (-15) (-20) btcOnlyMap [("ETH", 50)]).2
      "BTC" (by simp)⟩

end ExchangeNotify
